import Mathlib

/-!
Verification development for the business-outreach recording pipeline.

The definitions below are a shallow embedding of the TypeScript sources:
`utils/record.ts` (directory scanner, smooth-motion easing, interaction
planner, recording-session controller, batch driver), the JSON extraction
helper (`extractJsonFromResponse`) and the SERP result filter
(`filterAndStructureResults`).

Modelling conventions:
* JavaScript numbers are modelled as rationals (ℚ) in the easing
  computations, and as integers (ℤ) for pixel geometry: the planner only
  subtracts and compares coordinates, so discrete coordinates lose no
  generality for the claims settled here.
* `Array.prototype.sort(cmp)` is modelled as a deterministic insertion sort
  in which element `a` may be placed before `b` exactly when `cmp a b ≤ 0`.
* Fallible browser / filesystem steps are modelled by explicit outcome flags;
  a step that throws is recorded as an attempted event, and control flow
  follows the source's `try`/`catch`/`finally` structure.
* `JSON.parse` is a platform builtin, not repository code; it is abstracted
  as a parameter `String → Option JsonValue` (`none` models a parse error).
* `String.prototype.localeCompare` is modelled as the code-point order on
  strings.
-/

/-- Insertion step of the comparator-sort model: `a` is placed before the
first element `b` of the (already processed) list with `le a b`. -/
def insertBy (le : α → α → Bool) (a : α) : List α → List α
  | [] => [a]
  | b :: l => if le a b then a :: b :: l else b :: insertBy le a l

/-- Deterministic model of `Array.prototype.sort` with comparator `cmp`,
where `le a b` stands for `cmp a b ≤ 0`. -/
def sortBy (le : α → α → Bool) : List α → List α
  | [] => []
  | a :: l => insertBy le a (sortBy le l)

theorem perm_insertBy (le : α → α → Bool) (a : α) (l : List α) :
    (insertBy le a l).Perm (a :: l) := by
  induction l with
  | nil => exact List.Perm.refl _
  | cons b t ih =>
    rw [insertBy]
    by_cases h : le a b = true
    · rw [if_pos h]
    · rw [if_neg h]
      exact (ih.cons b).trans (List.Perm.swap a b t)

theorem perm_sortBy (le : α → α → Bool) (l : List α) :
    (sortBy le l).Perm l := by
  induction l with
  | nil => exact List.Perm.refl _
  | cons a t ih =>
    rw [sortBy]
    exact (perm_insertBy le a (sortBy le t)).trans (ih.cons a)

theorem head?_insertBy (le : α → α → Bool) (a : α) (l : List α) :
    (insertBy le a l).head? = some a ∨ (insertBy le a l).head? = l.head? := by
  cases l with
  | nil => left; rfl
  | cons b t =>
    by_cases h : le a b = true
    · left; simp [insertBy, h]
    · right; simp [insertBy, h]

theorem chain'_insertBy (le : α → α → Bool)
    (htot : ∀ a b, le a b = true ∨ le b a = true) (a : α) (l : List α)
    (h : List.Chain' (fun x y => le x y = true) l) :
    List.Chain' (fun x y => le x y = true) (insertBy le a l) := by
  induction l with
  | nil => simp [insertBy]
  | cons b t ih =>
    rw [insertBy]
    by_cases hab : le a b = true
    · rw [if_pos hab]
      exact List.chain'_cons.mpr ⟨hab, h⟩
    · rw [if_neg hab]
      obtain ⟨hb, ht⟩ := List.chain'_cons'.mp h
      refine List.chain'_cons'.mpr ⟨?_, ih ht⟩
      intro y hy
      rcases head?_insertBy le a t with hh | hh
      · rw [hh] at hy
        simp only [Option.mem_def, Option.some.injEq] at hy
        subst hy
        rcases htot a b with h1 | h1
        · exact absurd h1 hab
        · exact h1
      · rw [hh] at hy
        exact hb y hy

theorem chain'_sortBy (le : α → α → Bool)
    (htot : ∀ a b, le a b = true ∨ le b a = true) (l : List α) :
    List.Chain' (fun x y => le x y = true) (sortBy le l) := by
  induction l with
  | nil => simp [sortBy]
  | cons a t ih => exact chain'_insertBy le htot a (sortBy le t) ih

/-! ## Resource Directory Scanner (`listResourceBusinessDirs`, record.ts 11-21) -/

/-- A `withFileTypes` entry returned by `readdir`; `isDirectory` models the
`isDirectory()` method. -/
structure DirEntry where
  name : String
  isDirectory : Bool
deriving DecidableEq

/-- `n.startsWith(c)` for a single character `c`, expressed on the character
list so that it evaluates by kernel reduction. -/
def startsWithChar (n : String) (c : Char) : Bool :=
  match n.data with
  | [] => false
  | a :: _ => a == c

/-- `listResourceBusinessDirs`: keep directory entries, take their names,
drop hidden names (leading `.`), sort (`localeCompare` modelled as the
code-point order on strings). -/
def listResourceBusinessDirs (entries : List DirEntry) : List String :=
  sortBy (fun a b => decide (a ≤ b))
    ((((entries.filter (fun e => e.isDirectory)).map (fun e => e.name)).filter
      (fun n => !(startsWithChar n '.'))))

/-- The qualifying names: non-hidden immediate subdirectory entries. -/
def qualifyingDirNames (entries : List DirEntry) : List String :=
  ((entries.filter (fun e => e.isDirectory)).map (fun e => e.name)).filter
    (fun n => !(startsWithChar n '.'))

/-- Claim C6: the scanner returns exactly the names of the immediate
subdirectory entries whose names do not begin with `.`, sorted
lexicographically; with no qualifying subdirectories it returns the empty
list (not an error), which the batch driver treats as a no-op. -/
theorem claim_C6_scanner (entries : List DirEntry) :
    (listResourceBusinessDirs entries).Perm (qualifyingDirNames entries) ∧
    List.Sorted (· ≤ ·) (listResourceBusinessDirs entries) ∧
    (qualifyingDirNames entries = [] → listResourceBusinessDirs entries = []) := by
  have hperm : (listResourceBusinessDirs entries).Perm (qualifyingDirNames entries) :=
    perm_sortBy _ _
  refine ⟨hperm, ?_, ?_⟩
  · have htot : ∀ a b : String, (decide (a ≤ b)) = true ∨ (decide (b ≤ a)) = true := by
      intro a b
      rcases le_total a b with h | h
      · left; exact decide_eq_true h
      · right; exact decide_eq_true h
    have hc := chain'_sortBy (fun a b : String => decide (a ≤ b)) htot
      (qualifyingDirNames entries)
    have hc' : List.Chain' (· ≤ ·) (listResourceBusinessDirs entries) := by
      refine List.Chain'.imp ?_ hc
      intro a b hab
      exact of_decide_eq_true hab
    exact List.chain'_iff_pairwise.mp hc'
  · intro h
    rw [h] at hperm
    exact List.Perm.eq_nil hperm

/-- Witness for C6 at a concrete listing. -/
theorem claim_C6_scanner_witness :
    qualifyingDirNames [⟨".git", true⟩, ⟨"notes.txt", false⟩] = [] ∧
    listResourceBusinessDirs [⟨".git", true⟩, ⟨"notes.txt", false⟩] = [] := by
  refine ⟨by decide, ?_⟩
  exact (claim_C6_scanner [⟨".git", true⟩, ⟨"notes.txt", false⟩]).2.2 (by decide)

/-! ## Smooth Motion Primitives (`smoothMouseMove` / `smoothScroll`, record.ts 23-56) -/

/-- The ease-in-out curve shared by all motion code paths
(record.ts lines 28-30, 48-50, 235-237, 285-287):
`progress < 0.5 ? 2*progress*progress : 1 - Math.pow(-2*progress + 2, 2) / 2`. -/
def eased (progress : ℚ) : ℚ :=
  if progress < 1/2 then 2 * progress * progress
  else 1 - (-2 * progress + 2)^2 / 2

/-- One interpolation step of `smoothMouseMove`: the coordinates issued at
normalized progress `t` (record.ts lines 32-33). -/
def smoothMouseMovePosition (fromX fromY toX toY t : ℚ) : ℚ × ℚ :=
  (fromX + (toX - fromX) * eased t, fromY + (toY - fromY) * eased t)

/-- One interpolation step of `smoothScroll`: the scroll offset issued at
normalized progress `t` (record.ts line 52). -/
def smoothScrollPosition (startY distance t : ℚ) : ℚ :=
  startY + distance * eased t

/-- Claim C3: the ease-in-out function satisfies `eased 0 = 0`, `eased 1 = 1`,
`eased (1/2) = 1/2`, and is monotonically increasing on `[0, 1]`. -/
theorem claim_C3_eased :
    eased 0 = 0 ∧ eased 1 = 1 ∧ eased (1/2) = 1/2 ∧
    ∀ s t : ℚ, 0 ≤ s → s ≤ t → t ≤ 1 → eased s ≤ eased t := by
  refine ⟨by norm_num [eased], by norm_num [eased], by norm_num [eased], ?_⟩
  intro s t hs hst ht1
  unfold eased
  split_ifs with h1 h2 h2
  · nlinarith
  · nlinarith [sq_nonneg (1 - 2*s), sq_nonneg (2 - 2*t)]
  · linarith
  · nlinarith [sq_nonneg (2 - 2*t), sq_nonneg (2 - 2*s)]

/-- Witness for C3 at concrete inputs. -/
theorem claim_C3_eased_witness :
    (0:ℚ) ≤ 0 ∧ (0:ℚ) ≤ 1 ∧ (1:ℚ) ≤ 1 ∧ eased 0 ≤ eased 1 :=
  ⟨le_refl 0, by norm_num, le_refl 1,
    claim_C3_eased.2.2.2 0 1 (le_refl 0) (by norm_num) (le_refl 1)⟩

/-! ## Interaction Planner (record.ts 177-217) -/

/-- A bounding box as returned by `el.boundingBox()` /
`getBoundingClientRect()`. -/
structure BoundingBox where
  x : ℤ
  y : ℤ
  width : ℤ
  height : ℤ
deriving DecidableEq

/-- Observable state of one candidate element inside a section.
`boundingBox = none` models `el.boundingBox()` throwing (e.g. detached node);
`some none` models it returning `null`.  `display`, `visibility`, `opacity`
are the computed-style strings, `rectWidth`/`rectHeight` the
`getBoundingClientRect()` size, and `visibilityEvalThrows` models the
`el.evaluate` visibility probe throwing. -/
structure Candidate where
  boundingBox : Option (Option BoundingBox)
  display : String
  visibility : String
  opacity : String
  rectWidth : ℤ
  rectHeight : ℤ
  visibilityEvalThrows : Bool
deriving DecidableEq

/-- Per-element step of the planner loop (record.ts 185-207): skip on a
thrown `boundingBox()`, on a `null` box, on degenerate size (`< 10`),
on a thrown visibility probe, and on a failed visibility check
(`display:none`, `visibility:hidden`, opacity string `"0"`, or
non-positive rendered size); otherwise keep the element with its box. -/
def elementHoverTarget (c : Candidate) : Option BoundingBox :=
  match c.boundingBox with
  | none => none
  | some none => none
  | some (some box) =>
    if box.width < 10 ∨ box.height < 10 then none
    else if c.visibilityEvalThrows then none
    else if c.display = "none" ∨ c.visibility = "hidden" ∨ c.opacity = "0"
        ∨ ¬ (0 < c.rectWidth) ∨ ¬ (0 < c.rectHeight) then none
    else some box

/-- `Math.abs`. -/
def mathAbs (q : ℤ) : ℤ := if q < 0 then -q else q

/-- The sort comparator of record.ts 210-214, phrased as
`cmp a b ≤ 0` ("a may be ordered before b"): compare by `y` when the
vertical distance exceeds 40, otherwise by `x`. -/
def hoverTargetLe (p q : Candidate × BoundingBox) : Bool :=
  if mathAbs (p.2.y - q.2.y) > 40 then decide (p.2.y - q.2.y ≤ 0)
  else decide (p.2.x - q.2.x ≤ 0)

/-- The planner for one section (record.ts 185-217): visibility-filter the
candidates, sort by the row-bucketed comparator, and truncate to at most
5 targets. -/
def planRegionTargets (cs : List Candidate) : List (Candidate × BoundingBox) :=
  (sortBy hoverTargetLe
    (cs.filterMap (fun c => (elementHoverTarget c).map (fun b => (c, b))))).take 5

theorem mathAbs_sub_comm (a b : ℤ) : mathAbs (a - b) = mathAbs (b - a) := by
  unfold mathAbs
  rcases lt_trichotomy (a - b) 0 with h | h | h
  · rw [if_pos h, if_neg (by linarith)]; ring
  · have h2 : b - a = 0 := by linarith
    rw [h, h2]
  · rw [if_neg (by linarith), if_pos (by linarith)]; ring

theorem hoverTargetLe_total (p q : Candidate × BoundingBox) :
    hoverTargetLe p q = true ∨ hoverTargetLe q p = true := by
  unfold hoverTargetLe
  rw [mathAbs_sub_comm (p.2.y) (q.2.y)]
  by_cases hgt : mathAbs (q.2.y - p.2.y) > 40
  · rw [if_pos hgt, if_pos hgt]
    rcases le_total (p.2.y - q.2.y) 0 with h | h
    · left; exact decide_eq_true h
    · right; exact decide_eq_true (by linarith)
  · rw [if_neg hgt, if_neg hgt]
    rcases le_total (p.2.x - q.2.x) 0 with h | h
    · left; exact decide_eq_true h
    · right; exact decide_eq_true (by linarith)

/-- The ordering property asserted by the claim for the returned list:
every earlier/later pair is in increasing `y` when separated vertically by
more than 40, and in increasing `x` when separated by less than 40. -/
def rowBucketOrdered (l : List (Candidate × BoundingBox)) : Prop :=
  ∀ i j : Fin l.length, (i : ℕ) < (j : ℕ) →
    (40 < mathAbs ((l.get i).2.y - (l.get j).2.y) → (l.get i).2.y < (l.get j).2.y) ∧
    (mathAbs ((l.get i).2.y - (l.get j).2.y) < 40 → (l.get i).2.x < (l.get j).2.x)

instance (l : List (Candidate × BoundingBox)) : Decidable (rowBucketOrdered l) := by
  unfold rowBucketOrdered
  infer_instance

/-- A fully visible candidate sitting at position (x, y), used in concrete
planner evaluations. -/
def visibleCandidateAt (x y : ℤ) : Candidate :=
  ⟨some (some ⟨x, y, 20, 20⟩), "block", "visible", "1", 20, 20, false⟩

/-- Counterexample to claim C4: the comparator's row bucketing is not
transitive, so the claimed pairwise order can be unsatisfiable.  With boxes
at (x, y) = (2, 0), (1, 39), (0, 78) the planner returns the boxes at
y = 0, 78, 39 in that order, and the first and last returned targets are
vertically within the 40px threshold yet have strictly decreasing `x`. -/
theorem claim_C4_counterexample :
    ¬ ((planRegionTargets
          [visibleCandidateAt 2 0, visibleCandidateAt 1 39, visibleCandidateAt 0 78]).length ≤ 5 ∧
       rowBucketOrdered
         (planRegionTargets
           [visibleCandidateAt 2 0, visibleCandidateAt 1 39, visibleCandidateAt 0 78])) := by
  decide

/-- Claim C4 (amended): the planner returns at most 5 targets, and the
returned list is ordered in the adjacent-pair sense of the comparator:
consecutive targets separated vertically by more than the 40px threshold
appear in increasing `y`, and consecutive targets within the threshold
appear in non-decreasing `x`.  (The full pairwise version of the claim is
refuted by `claim_C4_counterexample`.) -/
theorem claim_C4_amended (cs : List Candidate) :
    (planRegionTargets cs).length ≤ 5 ∧
    (planRegionTargets cs).Chain' (fun p q =>
      (40 < mathAbs (p.2.y - q.2.y) → p.2.y < q.2.y) ∧
      (mathAbs (p.2.y - q.2.y) ≤ 40 → p.2.x ≤ q.2.x)) := by
  constructor
  · unfold planRegionTargets
    rw [List.length_take]
    exact min_le_left _ _
  · have hc := chain'_sortBy hoverTargetLe hoverTargetLe_total
      (cs.filterMap (fun c => (elementHoverTarget c).map (fun b => (c, b))))
    have hc2 := hc.take 5
    unfold planRegionTargets
    refine List.Chain'.imp ?_ hc2
    intro p q hpq
    unfold hoverTargetLe at hpq
    by_cases hgt : mathAbs (p.2.y - q.2.y) > 40
    · rw [if_pos hgt] at hpq
      have hle : p.2.y - q.2.y ≤ 0 := of_decide_eq_true hpq
      constructor
      · intro _
        rcases eq_or_lt_of_le hle with h | h
        · exfalso
          have : p.2.y - q.2.y = 0 := h
          rw [this] at hgt
          norm_num [mathAbs] at hgt
        · linarith
      · intro hc3; linarith
    · rw [if_neg hgt] at hpq
      have hle : p.2.x - q.2.x ≤ 0 := of_decide_eq_true hpq
      exact ⟨fun h => absurd h hgt, fun _ => by linarith⟩

/-- Claim C5: any candidate whose bounding box is absent (thrown or null),
whose box is below the 10px minimum size, whose computed style is
`display:none`, `visibility:hidden`, or zero opacity, whose rendered size is
not positive, or whose visibility probe throws, never appears in the
returned target list; and such an element's presence in the candidate list
does not change the plan for the others. -/
theorem claim_C5_visibility_filter (cs l1 l2 : List Candidate) (c : Candidate)
    (h : c.boundingBox = none ∨ c.boundingBox = some none
      ∨ (∃ b, c.boundingBox = some (some b) ∧ (b.width < 10 ∨ b.height < 10))
      ∨ c.display = "none" ∨ c.visibility = "hidden" ∨ c.opacity = "0"
      ∨ c.rectWidth ≤ 0 ∨ c.rectHeight ≤ 0 ∨ c.visibilityEvalThrows = true) :
    (∀ b, (c, b) ∉ planRegionTargets cs) ∧
    planRegionTargets (l1 ++ c :: l2) = planRegionTargets (l1 ++ l2) := by
  have hnone : elementHoverTarget c = none := by
    rcases hbb : c.boundingBox with _ | ob
    · simp [elementHoverTarget, hbb]
    rcases ob with _ | box
    · simp [elementHoverTarget, hbb]
    simp only [elementHoverTarget, hbb]
    split_ifs with hsz hev hvis
    · rfl
    · rfl
    · rfl
    exfalso
    rcases h with h | h | ⟨b, hb, hbsz⟩ | h | h | h | h | h | h
    · rw [h] at hbb; exact Option.noConfusion hbb
    · rw [h] at hbb; simp at hbb
    · rw [hb] at hbb
      have hb2 : b = box := by simpa using hbb
      subst hb2
      exact hsz hbsz
    · exact hvis (Or.inl h)
    · exact hvis (Or.inr (Or.inl h))
    · exact hvis (Or.inr (Or.inr (Or.inl h)))
    · exact hvis (Or.inr (Or.inr (Or.inr (Or.inl (not_lt.mpr h)))))
    · exact hvis (Or.inr (Or.inr (Or.inr (Or.inr (not_lt.mpr h)))))
    · exact hev h
  constructor
  · intro b hmem
    have hmem2 : (c, b) ∈ sortBy hoverTargetLe
        (cs.filterMap (fun c => (elementHoverTarget c).map (fun b => (c, b)))) :=
      List.take_subset 5 _ hmem
    have hmem3 : (c, b) ∈ cs.filterMap
        (fun c => (elementHoverTarget c).map (fun b => (c, b))) :=
      (perm_sortBy hoverTargetLe _).mem_iff.mp hmem2
    obtain ⟨a, _, ha⟩ := List.mem_filterMap.mp hmem3
    rcases hat : elementHoverTarget a with _ | b'
    · rw [hat] at ha; exact absurd ha (by simp)
    · rw [hat] at ha
      have : a = c ∧ b' = b := by
        constructor <;> (simp only [Option.map_some'] at ha; injection ha with ha2; cases ha2; rfl)
      rw [this.1] at hat
      rw [hnone] at hat
      exact absurd hat (by simp)
  · unfold planRegionTargets
    simp [List.filterMap_append, List.filterMap_cons, hnone]

/-- Witness for C5 at a concrete hidden candidate. -/
theorem claim_C5_visibility_filter_witness :
    (∀ b, (⟨some (some ⟨0, 0, 20, 20⟩), "none", "visible", "1", 20, 20, false⟩, b)
        ∉ planRegionTargets [visibleCandidateAt 2 0,
            ⟨some (some ⟨0, 0, 20, 20⟩), "none", "visible", "1", 20, 20, false⟩]) ∧
    planRegionTargets ([visibleCandidateAt 2 0] ++
        ⟨some (some ⟨0, 0, 20, 20⟩), "none", "visible", "1", 20, 20, false⟩ :: []) =
      planRegionTargets ([visibleCandidateAt 2 0] ++ []) :=
  claim_C5_visibility_filter
    [visibleCandidateAt 2 0,
      ⟨some (some ⟨0, 0, 20, 20⟩), "none", "visible", "1", 20, 20, false⟩]
    [visibleCandidateAt 2 0] []
    ⟨some (some ⟨0, 0, 20, 20⟩), "none", "visible", "1", 20, 20, false⟩
    (Or.inr (Or.inr (Or.inr (Or.inl rfl))))

/-! ## Recording Session Controller (`recordOneBusinessFolder`, record.ts 58-362) -/

/-- Steps of one recording session, in source order.  `mkdirProfile` is the
profile-directory `mkdir` (line 75), `launchBrowser` the `puppeteer.launch`
(line 77), `newPage` the page creation / timeout / recorder construction
(lines 93-101), `mkdirBusiness` the output-directory `mkdir` (line 103);
`navigate` covers `page.goto` + cursor injection (lines 110-148, inside the
`try`), `captureStart` is `recorder.start` (line 150), `interactions` the
rest of the interaction script, `captureStop`/`pageClose`/`browserClose` the
`finally` steps, and `writeMeta` the `recording.json` write (line 349). -/
inductive SessionEv where
  | mkdirProfile
  | launchBrowser
  | newPage
  | mkdirBusiness
  | navigate
  | captureStart
  | interactions
  | captureStop
  | pageClose
  | browserClose
  | writeMeta
deriving DecidableEq

/-- Whether each fallible step of a session would succeed if attempted.
The cleanup flags (`captureStopOk`, `pageCloseOk`, `browserCloseOk`) are
listed even though the `finally` block swallows their failures: the
independence of the result from these flags is part of what is proved. -/
structure SessionOutcomes where
  mkdirProfileOk : Bool
  launchOk : Bool
  newPageOk : Bool
  mkdirBusinessOk : Bool
  navigateOk : Bool
  captureStartOk : Bool
  interactionsOk : Bool
  captureStopOk : Bool
  pageCloseOk : Bool
  browserCloseOk : Bool
  writeMetaOk : Bool
deriving DecidableEq

/-- Trace semantics of `recordOneBusinessFolder`: the ordered list of
attempted steps together with whether the call returns normally.  Steps
before the `try` (profile mkdir, launch, page creation, output-directory
mkdir) abort the whole call when they throw, skipping the `finally` cleanup;
inside the `try`, a throw still runs the `finally`: `recorder.stop` is
attempted only when the `started` flag was set (i.e. `recorder.start`
returned), then `page.close` and `browser.close` are each attempted once,
every stop/close failure being swallowed by its own `catch`; on a normal
`try` exit the metadata write follows the cleanup. -/
def recordOneBusinessFolder (o : SessionOutcomes) : List SessionEv × Bool :=
  if !o.mkdirProfileOk then ([.mkdirProfile], false)
  else if !o.launchOk then ([.mkdirProfile, .launchBrowser], false)
  else if !o.newPageOk then ([.mkdirProfile, .launchBrowser, .newPage], false)
  else if !o.mkdirBusinessOk then
    ([.mkdirProfile, .launchBrowser, .newPage, .mkdirBusiness], false)
  else
    let setup : List SessionEv := [.mkdirProfile, .launchBrowser, .newPage, .mkdirBusiness]
    if !o.navigateOk then
      (setup ++ [.navigate] ++ [.pageClose, .browserClose], false)
    else if !o.captureStartOk then
      (setup ++ [.navigate, .captureStart] ++ [.pageClose, .browserClose], false)
    else if !o.interactionsOk then
      (setup ++ [.navigate, .captureStart, .interactions]
        ++ [.captureStop, .pageClose, .browserClose], false)
    else
      (setup ++ [.navigate, .captureStart, .interactions]
        ++ [.captureStop, .pageClose, .browserClose] ++ [.writeMeta],
       o.writeMetaOk)

/-- The value of the `started` flag when the `finally` block runs: set only
after `recorder.start` succeeded, which requires every earlier step to have
succeeded. -/
def captureStarted (o : SessionOutcomes) : Bool :=
  o.mkdirProfileOk && o.launchOk && o.newPageOk && o.mkdirBusinessOk
    && o.navigateOk && o.captureStartOk

/-- A session in which every step would succeed except the output-directory
`mkdir` of record.ts line 103. -/
def mkdirBusinessFails : SessionOutcomes :=
  ⟨true, true, true, false, true, true, true, true, true, true, true⟩

/-- Counterexample to claim C1 as stated: when the output-directory `mkdir`
(record.ts line 103) throws — a step of the session that runs after the
browser and page exist but before the `try`/`finally` is entered — neither
`page.close` nor `browser.close` is attempted, contradicting "attempted
exactly once no matter which step throws". -/
theorem claim_C1_counterexample :
    ¬ ((SessionEv.captureStop ∈ (recordOneBusinessFolder mkdirBusinessFails).1 ↔
        captureStarted mkdirBusinessFails = true) ∧
       (recordOneBusinessFolder mkdirBusinessFails).1.count SessionEv.pageClose = 1 ∧
       (recordOneBusinessFolder mkdirBusinessFails).1.count SessionEv.browserClose = 1) := by
  decide

/-- Claim C1 (amended): for every session that enters the guarded
`try`/`finally` region — i.e. the profile mkdir, browser launch, page
creation and output-directory mkdir succeeded — the recorder's stop is
attempted iff the capture start completed successfully; `page.close` and
`browser.close` are each attempted exactly once no matter which step of the
guarded region throws; a session whose capture-start step throws attempts no
capture-stop but still attempts both closes; and the whole outcome is
independent of stop/close failures (each is swallowed by its own `catch`).
The unamended claim fails when a setup step before the guarded region
throws (`claim_C1_counterexample`). -/
theorem claim_C1_amended (nav cap inter st pc bc wm : Bool) :
    ((SessionEv.captureStop ∈
        (recordOneBusinessFolder ⟨true, true, true, true, nav, cap, inter, st, pc, bc, wm⟩).1) ↔
      captureStarted ⟨true, true, true, true, nav, cap, inter, st, pc, bc, wm⟩ = true) ∧
    ((recordOneBusinessFolder ⟨true, true, true, true, nav, cap, inter, st, pc, bc, wm⟩).1.count
        SessionEv.pageClose = 1) ∧
    ((recordOneBusinessFolder ⟨true, true, true, true, nav, cap, inter, st, pc, bc, wm⟩).1.count
        SessionEv.browserClose = 1) ∧
    (cap = false →
      SessionEv.captureStop ∉
          (recordOneBusinessFolder ⟨true, true, true, true, nav, cap, inter, st, pc, bc, wm⟩).1 ∧
      SessionEv.pageClose ∈
          (recordOneBusinessFolder ⟨true, true, true, true, nav, cap, inter, st, pc, bc, wm⟩).1 ∧
      SessionEv.browserClose ∈
          (recordOneBusinessFolder ⟨true, true, true, true, nav, cap, inter, st, pc, bc, wm⟩).1) ∧
    (∀ st2 pc2 bc2 : Bool,
      recordOneBusinessFolder ⟨true, true, true, true, nav, cap, inter, st2, pc2, bc2, wm⟩ =
        recordOneBusinessFolder ⟨true, true, true, true, nav, cap, inter, st, pc, bc, wm⟩) := by
  refine ⟨?_, ?_, ?_, ?_, fun st2 pc2 bc2 => rfl⟩ <;>
    cases nav <;> cases cap <;> cases inter <;>
      simp [recordOneBusinessFolder, captureStarted]

/-- Witness for C1 (amended) at a concrete capture-start failure. -/
theorem claim_C1_amended_witness :
    (false = false) ∧
    (SessionEv.captureStop ∉
        (recordOneBusinessFolder ⟨true, true, true, true, true, false, true,
          true, true, true, true⟩).1 ∧
      SessionEv.pageClose ∈
        (recordOneBusinessFolder ⟨true, true, true, true, true, false, true,
          true, true, true, true⟩).1 ∧
      SessionEv.browserClose ∈
        (recordOneBusinessFolder ⟨true, true, true, true, true, false, true,
          true, true, true, true⟩).1) :=
  ⟨rfl, (claim_C1_amended true false true true true true true).2.2.2.1 rfl⟩

/-- The side-car metadata record written as `recording.json`. -/
structure RecordingMeta where
  business_folder : String
  index_html : String
  recording : String
deriving DecidableEq

/-- The `recording.json` contents written at record.ts 348-361.
`new URL(rel, baseDirUrl)` for a plain folder name and plain relative file
names is modelled as string concatenation; the resources root ends in a
slash. -/
def recordingMetaFor (resourcesRoot folderName : String) : RecordingMeta :=
  ⟨folderName,
   resourcesRoot ++ folderName ++ "/" ++ "index.html",
   resourcesRoot ++ folderName ++ "/" ++ "recording.mp4"⟩

/-- A session in which every step succeeds. -/
def allStepsOk : SessionOutcomes :=
  ⟨true, true, true, true, true, true, true, true, true, true, true⟩

/-- Claim C7: a successful session performs the metadata write, and the
written record's `business_folder` equals the folder's directory name, its
`index_html` references the folder's `index.html`, and its `recording`
references a path ending in `recording.mp4` inside the same folder. -/
theorem claim_C7_metadata (o : SessionOutcomes) (root folder : String)
    (h : (recordOneBusinessFolder o).2 = true) :
    SessionEv.writeMeta ∈ (recordOneBusinessFolder o).1 ∧
    (recordingMetaFor root folder).business_folder = folder ∧
    (recordingMetaFor root folder).index_html = root ++ folder ++ "/" ++ "index.html" ∧
    (∃ p, (recordingMetaFor root folder).recording = p ++ "recording.mp4" ∧
      p = root ++ folder ++ "/") := by
  refine ⟨?_, rfl, rfl, ⟨root ++ folder ++ "/", rfl, rfl⟩⟩
  obtain ⟨a, b, c, d, e, f, g, s, p, q, w⟩ := o
  cases a <;> cases b <;> cases c <;> cases d <;> cases e <;> cases f <;> cases g <;>
    simp_all [recordOneBusinessFolder]

/-- Witness for C7 at a fully successful session. -/
theorem claim_C7_metadata_witness :
    (recordOneBusinessFolder allStepsOk).2 = true ∧
    (SessionEv.writeMeta ∈ (recordOneBusinessFolder allStepsOk).1 ∧
      (recordingMetaFor "data/staging/resources/" "cafe_x").business_folder = "cafe_x" ∧
      (recordingMetaFor "data/staging/resources/" "cafe_x").index_html =
        "data/staging/resources/" ++ "cafe_x" ++ "/" ++ "index.html" ∧
      (∃ p, (recordingMetaFor "data/staging/resources/" "cafe_x").recording =
          p ++ "recording.mp4" ∧
        p = "data/staging/resources/" ++ "cafe_x" ++ "/")) :=
  ⟨rfl, claim_C7_metadata allStepsOk "data/staging/resources/" "cafe_x" rfl⟩

/-! ## Batch Driver (`recordAllBusinessesFromResources`, record.ts 364-388) -/

/-- The per-folder loop of the batch driver (record.ts 373-382): every
folder is attempted in order; a failing folder is recorded as
`{folder, error}` and the loop continues.  Returns (folders attempted,
failures collected), both in order. -/
def foldersBatch (run : String → Except String Unit) :
    List String → List String × List (String × String)
  | [] => ([], [])
  | f :: rest =>
    match run f with
    | .ok _ => (f :: (foldersBatch run rest).1, (foldersBatch run rest).2)
    | .error e => (f :: (foldersBatch run rest).1, (f, e) :: (foldersBatch run rest).2)

/-- Observable outcome of the batch entrypoint: the folders attempted, the
failures recorded, the process exit status, and whether the empty-list
no-op message was reported. -/
structure BatchResult where
  attempted : List String
  failures : List (String × String)
  exitCode : ℕ
  emptyNoOp : Bool
deriving DecidableEq

/-- `recordAllBusinessesFromResources` (record.ts 364-388): an empty folder
list is reported as an informational no-op and the process exits 0;
otherwise every folder is attempted and `process.exitCode` is set to 1
exactly when at least one folder failed. -/
def recordAllBusinessesFromResources (run : String → Except String Unit)
    (folders : List String) : BatchResult :=
  if folders.isEmpty then ⟨[], [], 0, true⟩
  else
    ⟨(foldersBatch run folders).1, (foldersBatch run folders).2,
     if (foldersBatch run folders).2.isEmpty then 0 else 1, false⟩

theorem foldersBatch_eq (run : String → Except String Unit) (l : List String) :
    foldersBatch run l =
      (l, l.filterMap (fun f => match run f with
        | .ok _ => none
        | .error e => some (f, e))) := by
  induction l with
  | nil => rfl
  | cons f rest ih =>
    cases hr : run f <;> simp [foldersBatch, hr, ih, List.filterMap_cons]

/-- Claim C2: the batch driver attempts every folder in order even when some
fail, records each failure as `{folder, error}`, exits 0 iff no folder
failed (in particular on the empty list, which it reports as a no-op), and
exits non-zero when at least one folder failed. -/
theorem claim_C2_batch (run : String → Except String Unit) (folders : List String) :
    (recordAllBusinessesFromResources run folders).attempted = folders ∧
    (recordAllBusinessesFromResources run folders).failures =
      folders.filterMap (fun f => match run f with
        | .ok _ => none
        | .error e => some (f, e)) ∧
    ((recordAllBusinessesFromResources run folders).exitCode = 0 ↔
      (recordAllBusinessesFromResources run folders).failures = []) ∧
    (folders = [] →
      (recordAllBusinessesFromResources run folders).exitCode = 0 ∧
      (recordAllBusinessesFromResources run folders).emptyNoOp = true) := by
  by_cases he : folders = []
  · subst he
    simp [recordAllBusinessesFromResources]
  · have hne : folders.isEmpty = false := by
      cases folders with
      | nil => exact absurd rfl he
      | cons a l => rfl
    refine ⟨?_, ?_, ?_, fun h => absurd h he⟩ <;>
      simp [recordAllBusinessesFromResources, hne, foldersBatch_eq]

/-- A concrete per-folder runner used in batch witnesses: the folder named
"bad" fails with message "boom", every other folder succeeds. -/
def demoRun : String → Except String Unit :=
  fun f => if f = "bad" then .error "boom" else .ok ()

/-- Witness for C2 at the empty folder list and at a failing batch. -/
theorem claim_C2_batch_witness :
    ((recordAllBusinessesFromResources demoRun []).exitCode = 0 ∧
      (recordAllBusinessesFromResources demoRun []).emptyNoOp = true) ∧
    (recordAllBusinessesFromResources demoRun ["a", "bad"]).attempted = ["a", "bad"] :=
  ⟨(claim_C2_batch demoRun []).2.2.2 rfl, (claim_C2_batch demoRun ["a", "bad"]).1⟩

/-! ## Navigation-link click (record.ts 264-327) -/

/-- The page state the nav-click step observes: the three selector queries
(`nav .nav-links a`, `nav #navLinks a`, `nav a`) and the result of
`navLinks[2].boundingBox()` (`none` models both a `null` box and a throw,
which the surrounding `catch` swallows). -/
structure NavLinksState (α : Type) where
  navLinksClass : List α
  navLinksId : List α
  navAnchors : List α
  thirdLinkBox : Option BoundingBox

/-- The selector-fallback chain of record.ts 270-272: start from
`nav .nav-links a`; if fewer than three links, re-query `nav #navLinks a`;
if still fewer than three, re-query `nav a`. -/
def navLinksSelection (s : NavLinksState α) : List α :=
  let l := s.navLinksClass
  let l2 := if l.length < 3 then s.navLinksId else l
  if l2.length < 3 then s.navAnchors else l2

/-- Whether the third-link click is actually invoked (record.ts 274-300):
only when the selected list has at least three links *and* the third link
yields a bounding box. -/
def thirdNavLinkClicked (s : NavLinksState α) : Bool :=
  if 3 ≤ (navLinksSelection s).length then
    match s.thirdLinkBox with
    | some _ => true
    | none => false
  else false

/-- The element the click is issued on, when it is issued: `navLinks[2]`. -/
def thirdNavLinkTarget (s : NavLinksState α) : Option α :=
  if thirdNavLinkClicked s then (navLinksSelection s).get? 2 else none

/-- A nav state with three links whose third link has no bounding box. -/
def navStateThreeLinksNoBox : NavLinksState ℕ := ⟨[1, 2, 3], [], [], none⟩

/-- Counterexample to claim C8 as stated: with three links found but a
`null` bounding box on the third one (record.ts 276-277), no click is
issued, refuting "clicks the third link if and only if the list contains at
least three links". -/
theorem claim_C8_counterexample :
    ¬ (thirdNavLinkClicked navStateThreeLinksNoBox = true ↔
        3 ≤ (navLinksSelection navStateThreeLinksNoBox).length) := by
  decide

/-- Claim C8 (amended): the selected link list follows the fallback chain
(the class-based selector if it yields at least three links, else the
ID-based selector if it yields at least three links, else `nav a`); the
click is issued iff the selected list has at least three links and the third
link yields a bounding box (a `null` box or a throw skips the click and the
session continues); with fewer than three links no click is attempted; and
when the click is issued its target is the third selected link. -/
theorem claim_C8_amended {α : Type} (s : NavLinksState α) :
    navLinksSelection s =
      (if 3 ≤ s.navLinksClass.length then s.navLinksClass
       else if 3 ≤ s.navLinksId.length then s.navLinksId
       else s.navAnchors) ∧
    thirdNavLinkClicked s =
      (decide (3 ≤ (navLinksSelection s).length) && s.thirdLinkBox.isSome) ∧
    ((navLinksSelection s).length < 3 → thirdNavLinkClicked s = false) ∧
    (thirdNavLinkClicked s = true →
      ∃ x, thirdNavLinkTarget s = some x ∧ (navLinksSelection s).get? 2 = some x) := by
  refine ⟨?_, ?_, ?_, ?_⟩
  · unfold navLinksSelection
    by_cases h1 : 3 ≤ s.navLinksClass.length
    · simp [h1, Nat.not_lt.mpr h1]
    · have h1' : s.navLinksClass.length < 3 := Nat.not_le.mp h1
      by_cases h2 : 3 ≤ s.navLinksId.length
      · simp [h1, h1', h2, Nat.not_lt.mpr h2]
      · have h2' : s.navLinksId.length < 3 := Nat.not_le.mp h2
        simp [h1, h1', h2, h2']
  · unfold thirdNavLinkClicked
    by_cases h : 3 ≤ (navLinksSelection s).length
    · cases hb : s.thirdLinkBox <;> simp [h, hb]
    · simp [h]
  · intro h
    unfold thirdNavLinkClicked
    rw [if_neg (Nat.not_le.mpr h)]
  · intro h
    have hlen : 3 ≤ (navLinksSelection s).length := by
      unfold thirdNavLinkClicked at h
      by_cases hl : 3 ≤ (navLinksSelection s).length
      · exact hl
      · rw [if_neg hl] at h
        exact absurd h (by simp)
    have h2 : 2 < (navLinksSelection s).length := hlen
    refine ⟨(navLinksSelection s).get ⟨2, h2⟩, ?_, ?_⟩
    · unfold thirdNavLinkTarget
      rw [if_pos h, List.get?_eq_get h2]
    · rw [List.get?_eq_get h2]

/-- Witness for C8 (amended) with every fallback yielding fewer than three
links: no click is attempted. -/
theorem claim_C8_amended_witness :
    ((navLinksSelection (⟨[1], [], [2], none⟩ : NavLinksState ℕ)).length < 3) ∧
    thirdNavLinkClicked (⟨[1], [], [2], none⟩ : NavLinksState ℕ) = false :=
  ⟨by decide, (claim_C8_amended (⟨[1], [], [2], none⟩ : NavLinksState ℕ)).2.2.1 (by decide)⟩

/-! ## SERP result filter (`filterAndStructureResults`, serp tool source 637-658) -/

/-- JavaScript truthiness of an optional string field: `undefined` and the
empty string are falsy, every other string is truthy. -/
def truthyStr : Option String → Bool
  | none => false
  | some s => !(s == "")

/-- The `links` object of a SERP local result. -/
structure SerpLinks where
  website : Option String
  phone : Option String
deriving DecidableEq

/-- One entry of `local_results` (only the fields the filter and the
structuring step read). -/
structure LocalResult where
  title : Option String
  resultType : Option String
  description : Option String
  phone : Option String
  address : Option String
  links : Option SerpLinks
deriving DecidableEq

/-- A SERP response; `local_results = none` models a missing or non-array
`local_results` property. -/
structure SerpData where
  local_results : Option (List LocalResult)
deriving DecidableEq

/-- The structured lead produced for one kept result. -/
structure StructuredLead where
  name : String
  leadType : String
  description : String
  phone : String
  address : String
deriving DecidableEq

/-- `x || ""` for an optional string. -/
def orEmptyStr (o : Option String) : String := o.getD ""

/-- `result.links?.phone || result.phone || ""`. -/
def firstTruthyStr (a b : Option String) : String :=
  if truthyStr a then a.getD "" else if truthyStr b then b.getD "" else ""

/-- The filter predicate: no website link (`!result.links?.website`) and a
phone number (`!!(result.links?.phone || result.phone)`). -/
def keepLocalResult (r : LocalResult) : Bool :=
  !truthyStr (r.links.bind (fun l => l.website)) &&
    (truthyStr (r.links.bind (fun l => l.phone)) || truthyStr r.phone)

/-- The structuring step applied to each kept result. -/
def structuredLeadOf (r : LocalResult) : StructuredLead :=
  ⟨orEmptyStr r.title, orEmptyStr r.resultType, orEmptyStr r.description,
   firstTruthyStr (r.links.bind (fun l => l.phone)) r.phone,
   orEmptyStr r.address⟩

/-- The filter stage of `filterAndStructureResults`. -/
def filteredLocalResults (data : SerpData) : List LocalResult :=
  match data.local_results with
  | none => []
  | some rs => rs.filter keepLocalResult

/-- `filterAndStructureResults`: return `[]` when `local_results` is missing
or not an array, otherwise filter and structure. -/
def filterAndStructureResults (data : SerpData) : List StructuredLead :=
  (filteredLocalResults data).map structuredLeadOf

/-- Claim C10: only businesses without a (truthy) website link and with a
(truthy) phone number survive the filter; any local result with a website or
without a phone is excluded; a missing `local_results` array yields the
empty list; and the output is exactly the structured form of the kept
results. -/
theorem claim_C10_serp_filter (data : SerpData) (r : LocalResult) :
    (r ∈ filteredLocalResults data →
      truthyStr (r.links.bind (fun l => l.website)) = false ∧
      (truthyStr (r.links.bind (fun l => l.phone)) || truthyStr r.phone) = true) ∧
    ((truthyStr (r.links.bind (fun l => l.website)) = true ∨
      (truthyStr (r.links.bind (fun l => l.phone)) || truthyStr r.phone) = false) →
      r ∉ filteredLocalResults data) ∧
    (data.local_results = none → filterAndStructureResults data = []) ∧
    filterAndStructureResults data = (filteredLocalResults data).map structuredLeadOf := by
  have hmem : r ∈ filteredLocalResults data → keepLocalResult r = true := by
    intro hr
    unfold filteredLocalResults at hr
    cases hd : data.local_results with
    | none => rw [hd] at hr; exact absurd hr (List.not_mem_nil r)
    | some rs =>
      rw [hd] at hr
      exact (List.mem_filter.mp hr).2
  refine ⟨?_, ?_, ?_, rfl⟩
  · intro hr
    have hk := hmem hr
    unfold keepLocalResult at hk
    rw [Bool.and_eq_true] at hk
    exact ⟨by simpa using hk.1, hk.2⟩
  · intro hcond hr
    have hk := hmem hr
    unfold keepLocalResult at hk
    rw [Bool.and_eq_true] at hk
    rcases hcond with hw | hp
    · rw [hw] at hk
      simp at hk
    · rw [hp] at hk
      exact absurd hk.2 (by simp)
  · intro hd
    unfold filterAndStructureResults filteredLocalResults
    rw [hd]
    rfl

/-- A local result with a website and a phone, and one with neither website
nor any truthy phone; both must be excluded. -/
def resultWithWebsite : LocalResult :=
  ⟨some "Acme", some "store", some "desc", some "123", some "addr",
   some ⟨some "https://acme.example", some "123"⟩⟩

/-- Witness for C10: a result with a website link is excluded. -/
theorem claim_C10_serp_filter_witness :
    truthyStr (resultWithWebsite.links.bind (fun l => l.website)) = true ∧
    resultWithWebsite ∉
      filteredLocalResults ⟨some [resultWithWebsite]⟩ :=
  ⟨rfl,
    (claim_C10_serp_filter ⟨some [resultWithWebsite]⟩ resultWithWebsite).2.1 (Or.inl rfl)⟩

/-! ## JSON extraction (`extractJsonFromResponse`, jsonExtractor.ts 1-182) -/

/-- Parsed JSON values.  `JSON.parse` itself is a platform builtin, not
repository code; it is abstracted as a `String → Option JsonValue`
parameter (`none` models a parse exception). -/
inductive JsonValue where
  | null
  | bool (b : Bool)
  | num (q : ℚ)
  | str (s : String)
  | arr (elems : List JsonValue)
  | obj (fields : List (String × JsonValue))

/-- `typeof result === 'object' && result !== null` for a parsed JSON value:
true exactly for objects and arrays. -/
def isObjOrArr : JsonValue → Bool
  | .arr _ => true
  | .obj _ => true
  | _ => false

/-- The double-encoded-JSON repair applied to one entry value: a string
value starting with `\x7b` or `[` is re-parsed, keeping the original string
when that parse fails. -/
def decodeNestedStr (p : String → Option JsonValue) (v : JsonValue) : JsonValue :=
  match v with
  | .str s =>
    if startsWithChar s '\x7b' || startsWithChar s '[' then
      match p s with
      | some w => w
      | none => .str s
    else .str s
  | w => w

/-- The `Object.entries` loop of both extraction methods: re-parse
string-valued entries of an object (or elements of an array, whose index
properties `Object.entries` also yields). -/
def decodeNested (p : String → Option JsonValue) : JsonValue → JsonValue
  | .obj fields => .obj (fields.map (fun kv => (kv.1, decodeNestedStr p kv.2)))
  | .arr elems => .arr (elems.map (decodeNestedStr p))
  | v => v

/-- Shared tail of both extraction methods: parse a candidate slice, apply
the nested-decode repair when the result is an object/array, and return the
result only if it is a non-null object/array. -/
def parseAndValidate (p : String → Option JsonValue) (s : String) : Option JsonValue :=
  match p s with
  | none => none
  | some r =>
    if isObjOrArr (if isObjOrArr r then decodeNested p r else r) then
      some (if isObjOrArr r then decodeNested p r else r)
    else none

/-- `String.prototype.indexOf` for a single character, on the character
list (`none` models `-1`). -/
def idxOfChar (l : List Char) (c : Char) : Option ℕ :=
  match l with
  | [] => none
  | a :: rest => if a == c then some 0 else (idxOfChar rest c).map (· + 1)

/-- `String.prototype.lastIndexOf` for a single character. -/
def lastIdxOfChar (l : List Char) (c : Char) : Option ℕ :=
  (idxOfChar l.reverse c).map (fun i => l.length - 1 - i)

/-- The slice-and-parse tail of `trySimpleExtraction`:
`str.slice(startIdx, lastIndexOf(endChar) + 1)` parsed and validated;
`endIdx <= 0` (i.e. `lastIndexOf` returned `-1`) yields `null`. -/
def simpleSliceParse (p : String → Option JsonValue) (l : List Char)
    (startIdx : ℕ) (endChar : Char) : Option JsonValue :=
  match lastIdxOfChar l endChar with
  | none => none
  | some e => parseAndValidate p (String.mk ((l.take (e + 1)).drop startIdx))

/-- `trySimpleExtraction` (jsonExtractor.ts 7-69): pick whichever of `\x7b`
and `[` occurs first, slice to the last matching close bracket, parse and
validate. -/
def trySimpleExtraction (p : String → Option JsonValue) (l : List Char) :
    Option JsonValue :=
  match idxOfChar l '\x7b', idxOfChar l '[' with
  | none, none => none
  | some ci, none => simpleSliceParse p l ci '\x7d'
  | none, some si => simpleSliceParse p l si ']'
  | some ci, some si =>
    if si < ci then simpleSliceParse p l si ']'
    else simpleSliceParse p l ci '\x7d'

/-- `if (c === char) count++; if (c === endChar) count--;` -/
def bracketDelta (openC closeC c : Char) : ℤ :=
  (if c == openC then 1 else 0) - (if c == closeC then 1 else 0)

/-- The in-string toggle of the fallback scanner (updated before the
bracket check, as in the source). -/
def nextInString (inString escapeNext : Bool) (c : Char) : Bool :=
  if c == '"' && !escapeNext then !inString else inString

/-- `escapeNext = currentChar === '\\' && !escapeNext`. -/
def nextEscape (escapeNext : Bool) (c : Char) : Bool :=
  c == '\\' && !escapeNext

/-- The character loop of `tryFallbackExtraction` (jsonExtractor.ts 94-142):
`acc` holds the slice accumulated from the attempt's start position; when
the bracket count hits zero outside a string literal the slice is parsed,
a success returns and a failure continues the scan. -/
def scanGo (p : String → Option JsonValue) (openC closeC : Char)
    (acc : List Char) (count : ℤ) (inString escapeNext : Bool) :
    List Char → Option JsonValue
  | [] => none
  | c :: rest =>
    if nextInString inString escapeNext c then
      scanGo p openC closeC (acc ++ [c]) count (nextInString inString escapeNext c)
        (nextEscape escapeNext c) rest
    else
      if count + bracketDelta openC closeC c = 0 then
        match parseAndValidate p (String.mk (acc ++ [c])) with
        | some v => some v
        | none =>
          scanGo p openC closeC (acc ++ [c]) (count + bracketDelta openC closeC c)
            (nextInString inString escapeNext c) (nextEscape escapeNext c) rest
      else
        scanGo p openC closeC (acc ++ [c]) (count + bracketDelta openC closeC c)
          (nextInString inString escapeNext c) (nextEscape escapeNext c) rest

/-- The attempts of `tryFallbackExtraction` (jsonExtractor.ts 77-87): one
per bracket kind present, ordered by first occurrence. -/
def fallbackAttempts (l : List Char) : List (ℕ × Char × Char) :=
  match idxOfChar l '\x7b', idxOfChar l '[' with
  | none, none => []
  | some ci, none => [(ci, '\x7b', '\x7d')]
  | none, some si => [(si, '[', ']')]
  | some ci, some si =>
    if ci ≤ si then [(ci, '\x7b', '\x7d'), (si, '[', ']')]
    else [(si, '[', ']'), (ci, '\x7b', '\x7d')]

/-- Run the fallback attempts in order, returning the first success. -/
def runAttempts (p : String → Option JsonValue) (l : List Char) :
    List (ℕ × Char × Char) → Option JsonValue
  | [] => none
  | (start, oC, cC) :: rest =>
    match scanGo p oC cC [] 0 false false (l.drop start) with
    | some v => some v
    | none => runAttempts p l rest

/-- `tryFallbackExtraction` (jsonExtractor.ts 72-146). -/
def tryFallbackExtraction (p : String → Option JsonValue) (l : List Char) :
    Option JsonValue :=
  runAttempts p l (fallbackAttempts l)

/-- The `/\s+/g → ' '` collapse, with `prevWs` recording whether the
previous kept character position was inside a whitespace run. -/
def collapseWsAux : Bool → List Char → List Char
  | _, [] => []
  | prevWs, c :: rest =>
    if c.isWhitespace then
      if prevWs then collapseWsAux true rest
      else ' ' :: collapseWsAux true rest
    else c :: collapseWsAux false rest

/-- The cleaning step of jsonExtractor.ts 163-165: strip `\n\r\t`, then
collapse remaining whitespace runs to single spaces. -/
def cleanedChars (l : List Char) : List Char :=
  collapseWsAux false (l.filter (fun c => !(c == '\n' || c == '\r' || c == '\t')))

/-- `extractJsonFromResponse` (jsonExtractor.ts 1-182): simple method, then
fallback method, then both again on the cleaned response, else `null`.  The
function's own outer `try`/`catch` returns `null` on any error, so the model
is total. -/
def extractJsonFromResponse (p : String → Option JsonValue) (response : String) :
    Option JsonValue :=
  match trySimpleExtraction p response.data with
  | some v => some v
  | none =>
    match tryFallbackExtraction p response.data with
    | some v => some v
    | none =>
      match trySimpleExtraction p (cleanedChars response.data) with
      | some v => some v
      | none => tryFallbackExtraction p (cleanedChars response.data)

theorem parseAndValidate_shape (p : String → Option JsonValue) (s : String)
    (v : JsonValue) (h : parseAndValidate p s = some v) : isObjOrArr v = true := by
  unfold parseAndValidate at h
  split at h
  · exact absurd h (by simp)
  · split at h <;> try split at h
    all_goals first
      | (rename_i hcond; injection h with h3; subst h3; exact hcond)
      | exact absurd h (by simp)

theorem simpleSliceParse_shape (p : String → Option JsonValue) (l : List Char)
    (startIdx : ℕ) (endChar : Char) (v : JsonValue)
    (h : simpleSliceParse p l startIdx endChar = some v) : isObjOrArr v = true := by
  unfold simpleSliceParse at h
  split at h
  · exact absurd h (by simp)
  · exact parseAndValidate_shape p _ v h

theorem trySimpleExtraction_shape (p : String → Option JsonValue) (l : List Char)
    (v : JsonValue) (h : trySimpleExtraction p l = some v) : isObjOrArr v = true := by
  unfold trySimpleExtraction at h
  split at h
  all_goals first
    | exact absurd h (by simp)
    | exact simpleSliceParse_shape p l _ _ v h
    | (split at h <;> exact simpleSliceParse_shape p l _ _ v h)

theorem scanGo_shape (p : String → Option JsonValue) (openC closeC : Char)
    (l : List Char) :
    ∀ (acc : List Char) (count : ℤ) (inString escapeNext : Bool) (v : JsonValue),
      scanGo p openC closeC acc count inString escapeNext l = some v →
      isObjOrArr v = true := by
  induction l with
  | nil =>
    intro acc count inString escapeNext v h
    exact absurd h (by simp [scanGo])
  | cons c rest ih =>
    intro acc count inString escapeNext v h
    simp only [scanGo] at h
    by_cases h1 : nextInString inString escapeNext c = true
    · rw [if_pos h1] at h
      exact ih _ _ _ _ v h
    · rw [if_neg h1] at h
      by_cases h2 : count + bracketDelta openC closeC c = 0
      · rw [if_pos h2] at h
        cases hpv : parseAndValidate p (String.mk (acc ++ [c])) with
        | none =>
          rw [hpv] at h
          exact ih _ _ _ _ v h
        | some w =>
          rw [hpv] at h
          injection h with h3
          subst h3
          exact parseAndValidate_shape p _ _ hpv
      · rw [if_neg h2] at h
        exact ih _ _ _ _ v h

theorem runAttempts_shape (p : String → Option JsonValue) (l : List Char)
    (attempts : List (ℕ × Char × Char)) (v : JsonValue)
    (h : runAttempts p l attempts = some v) : isObjOrArr v = true := by
  induction attempts with
  | nil => exact absurd h (by simp [runAttempts])
  | cons a rest ih =>
    obtain ⟨start, oC, cC⟩ := a
    simp only [runAttempts] at h
    cases hs : scanGo p oC cC [] 0 false false (l.drop start) with
    | none =>
      rw [hs] at h
      exact ih h
    | some w =>
      rw [hs] at h
      injection h with h3
      subst h3
      exact scanGo_shape p oC cC (l.drop start) [] 0 false false _ hs

theorem tryFallbackExtraction_shape (p : String → Option JsonValue) (l : List Char)
    (v : JsonValue) (h : tryFallbackExtraction p l = some v) : isObjOrArr v = true :=
  runAttempts_shape p l (fallbackAttempts l) v h

theorem extractJsonFromResponse_shape (p : String → Option JsonValue) (s : String)
    (v : JsonValue) (h : extractJsonFromResponse p s = some v) :
    isObjOrArr v = true := by
  unfold extractJsonFromResponse at h
  cases h1 : trySimpleExtraction p s.data with
  | some w =>
    rw [h1] at h
    injection h with h2
    subst h2
    exact trySimpleExtraction_shape p s.data _ h1
  | none =>
    rw [h1] at h
    cases h2 : tryFallbackExtraction p s.data with
    | some w =>
      rw [h2] at h
      injection h with h3
      subst h3
      exact tryFallbackExtraction_shape p s.data _ h2
    | none =>
      rw [h2] at h
      cases h3 : trySimpleExtraction p (cleanedChars s.data) with
      | some w =>
        rw [h3] at h
        injection h with h4
        subst h4
        exact trySimpleExtraction_shape p (cleanedChars s.data) _ h3
      | none =>
        rw [h3] at h
        exact tryFallbackExtraction_shape p (cleanedChars s.data) v h

theorem idxOfChar_eq_none (l : List Char) (c : Char) (h : c ∉ l) :
    idxOfChar l c = none := by
  induction l with
  | nil => rfl
  | cons a rest ih =>
    have hne : (a == c) = false := by
      rw [beq_eq_false_iff_ne]
      intro hac
      subst hac
      exact h (List.mem_cons_self a rest)
    have hrest : c ∉ rest := fun hc => h (List.mem_cons_of_mem a hc)
    simp [idxOfChar, hne, ih hrest]

theorem trySimpleExtraction_of_no_brackets (p : String → Option JsonValue)
    (l : List Char) (h1 : ('\x7b' : Char) ∉ l) (h2 : ('[' : Char) ∉ l) :
    trySimpleExtraction p l = none := by
  unfold trySimpleExtraction
  rw [idxOfChar_eq_none l _ h1, idxOfChar_eq_none l _ h2]

theorem tryFallbackExtraction_of_no_brackets (p : String → Option JsonValue)
    (l : List Char) (h1 : ('\x7b' : Char) ∉ l) (h2 : ('[' : Char) ∉ l) :
    tryFallbackExtraction p l = none := by
  unfold tryFallbackExtraction fallbackAttempts
  rw [idxOfChar_eq_none l _ h1, idxOfChar_eq_none l _ h2]
  rfl

theorem mem_collapseWsAux (l : List Char) :
    ∀ (b : Bool) (c : Char), c ∈ collapseWsAux b l → c = ' ' ∨ c ∈ l := by
  induction l with
  | nil =>
    intro b c h
    exact absurd h (by simp [collapseWsAux])
  | cons a rest ih =>
    intro b c h
    simp only [collapseWsAux] at h
    by_cases hw : a.isWhitespace = true
    · rw [if_pos hw] at h
      by_cases hb : b = true
      · rw [if_pos hb] at h
        rcases ih true c h with h1 | h1
        · exact Or.inl h1
        · exact Or.inr (List.mem_cons_of_mem a h1)
      · rw [if_neg hb] at h
        rcases List.mem_cons.mp h with h1 | h1
        · exact Or.inl h1
        · rcases ih true c h1 with h3 | h3
          · exact Or.inl h3
          · exact Or.inr (List.mem_cons_of_mem a h3)
    · rw [if_neg hw] at h
      rcases List.mem_cons.mp h with h1 | h1
      · exact Or.inr (h1 ▸ List.mem_cons_self a rest)
      · rcases ih false c h1 with h3 | h3
        · exact Or.inl h3
        · exact Or.inr (List.mem_cons_of_mem a h3)

theorem not_mem_cleanedChars (l : List Char) (c : Char)
    (hc : c.isWhitespace = false) (h : c ∉ l) : c ∉ cleanedChars l := by
  intro hmem
  rcases mem_collapseWsAux _ false c hmem with h1 | h1
  · subst h1
    exact absurd hc (by decide)
  · exact h (List.mem_of_mem_filter h1)

/-- Claim C9: for every input string (and every behavior of the abstracted
`JSON.parse`), `extractJsonFromResponse` returns either `null` or a non-null
parsed object/array — its outer catch makes it total — and an input
containing neither `\x7b` nor `[` always yields `null`. -/
theorem claim_C9_extractor (p : String → Option JsonValue) (s : String) :
    (extractJsonFromResponse p s = none ∨
      ∃ v, extractJsonFromResponse p s = some v ∧ isObjOrArr v = true) ∧
    ((('\x7b' : Char) ∉ s.data ∧ ('[' : Char) ∉ s.data) →
      extractJsonFromResponse p s = none) := by
  constructor
  · cases he : extractJsonFromResponse p s with
    | none => exact Or.inl rfl
    | some v => exact Or.inr ⟨v, rfl, extractJsonFromResponse_shape p s v he⟩
  · rintro ⟨h1, h2⟩
    have c1 : ('\x7b' : Char) ∉ cleanedChars s.data :=
      not_mem_cleanedChars s.data _ (by decide) h1
    have c2 : ('[' : Char) ∉ cleanedChars s.data :=
      not_mem_cleanedChars s.data _ (by decide) h2
    unfold extractJsonFromResponse
    rw [trySimpleExtraction_of_no_brackets p _ h1 h2,
      tryFallbackExtraction_of_no_brackets p _ h1 h2,
      trySimpleExtraction_of_no_brackets p _ c1 c2,
      tryFallbackExtraction_of_no_brackets p _ c1 c2]

/-- A `JSON.parse` model that always fails, for concrete evaluations. -/
def nullParse : String → Option JsonValue := fun _ => none

/-- Witness for C9 on a bracket-free input. -/
theorem claim_C9_extractor_witness :
    ((('\x7b' : Char) ∉ "hello world".data ∧ ('[' : Char) ∉ "hello world".data)) ∧
    extractJsonFromResponse nullParse "hello world" = none :=
  ⟨⟨by decide, by decide⟩,
    (claim_C9_extractor nullParse "hello world").2 ⟨by decide, by decide⟩⟩
